import Mathlib

/-!
Verification development for the wildboar time-series library.

The Python sources are shallowly embedded: numeric values are modelled as
exact rationals (`ℚ`) or reals (`ℝ`), numpy arrays as lists, shapes as lists
of dimension sizes, and fallible validation code as `Except String`.
Components that live in compiled Cython modules (the raw distance scans, the
metric kernels and the tree builder) are modelled from the specification, as
indicated by their doc comments; everything else is translated directly from
the Python sources.
-/

namespace Wildboar

/-! ## Numeric argument model

Python call sites distinguish `numbers.Integral` from `numbers.Real`
arguments (`isinstance` checks in `subsequence_match` and `matrix_profile`).
-/

/-- A numeric argument that is either an integer or a (non-integral) real,
mirroring the `isinstance(v, numbers.Integral) / isinstance(v, numbers.Real)`
dispatch in the Python sources.  Reals are modelled as exact rationals. -/
inductive NumArg where
  | int (n : ℤ)
  | real (q : ℚ)
deriving DecidableEq, Repr

/-! ## `wildboar/utils/variable_len.py` -/

/-- The end-of-series sentinel bit pattern `0x7FF0000000000009`
(`variable_len.py` line 13). -/
def eosBits : ℕ := 0x7FF0000000000009

/-- `np.isnan` on a float64 bit pattern: the 11 exponent bits (bits 52–62) are
all ones and the 52 mantissa bits are not all zero. -/
def isnanBits (b : ℕ) : Bool :=
  decide (b / 2 ^ 52 % 2 ^ 11 = 0x7FF) && decide (b % 2 ^ 52 ≠ 0)

/-- `is_end_of_series` (`variable_len.py` lines 17–33): the element is a NaN
and its low four mantissa bits (`bits & 0xF`, i.e. `bits % 16`) equal 9. -/
def is_end_of_series (b : ℕ) : Bool :=
  isnanBits b && decide (b % 16 = 9)

/-- `np.argmax` over a boolean vector: the position of the first `true`;
0 when every element is `false` (numpy returns the first maximal element). -/
def npArgmaxBool (l : List Bool) : ℕ :=
  (l.findIdx? (· = true)).getD 0

/-- `get_variable_length` for a 1-D array (`variable_len.py` lines 84–87):
prepend `False` to the EoS indicator vector, take `argmax - 1`, and return the
array length when the result is negative. -/
def get_variable_length (x : List ℕ) : ℕ :=
  let eosInd := x.map is_end_of_series
  let argmax : ℤ := (npArgmaxBool (false :: eosInd) : ℤ) - 1
  if argmax < 0 then x.length else argmax.toNat

/-! ## Dimension validation (`wildboar/distance/__init__.py`)

`paired_subsequence_distance` (lines 310–312), `subsequence_match`
(lines 445–447) and `paired_subsequence_match` (lines 601–603) all validate
the `dim` parameter with the literal Python expression
`if not 0 >= dim < n_dims: raise ValueError(...)`.
Python chains the comparison: `0 >= dim < n_dims` means
`0 >= dim and dim < n_dims`.
-/

/-- `n_dims = x.shape[1] if x.ndim == 3 else 1` (shapes are dimension lists). -/
def nDimsOfShape (shape : List ℕ) : ℕ :=
  if shape.length = 3 then shape.getD 1 0 else 1

/-- The chained-comparison dimension test `0 >= dim < n_dims` shared by the
three subsequence functions: validation passes (no `ValueError`) iff
`0 ≥ dim` and `dim < n_dims`. -/
def dimCheckPasses (dim n_dims : ℤ) : Bool :=
  decide (0 ≥ dim) && decide (dim < n_dims)

/-- Dimension validation of `paired_subsequence_distance` (lines 310–312). -/
def paired_subsequence_distance_dim_ok (dim : ℤ) (shape : List ℕ) : Bool :=
  dimCheckPasses dim (nDimsOfShape shape)

/-- Dimension validation of `subsequence_match` (lines 445–447). -/
def subsequence_match_dim_ok (dim : ℤ) (shape : List ℕ) : Bool :=
  dimCheckPasses dim (nDimsOfShape shape)

/-- Dimension validation of `paired_subsequence_match` (lines 601–603). -/
def paired_subsequence_match_dim_ok (dim : ℤ) (shape : List ℕ) : Bool :=
  dimCheckPasses dim (nDimsOfShape shape)

/-! ## Query-length validation (`wildboar/distance/__init__.py`) -/

/-- Last-axis size `shape[-1]` of a non-empty shape. -/
def lastAxis (shape : List ℕ) : ℕ := shape.getLastD 0

/-- The query-length check of `pairwise_subsequence_distance`
(lines 228–232): for each subsequence `s` in `y`, raise
`ValueError` when `s.shape[0] > x.shape[-1]`. -/
def pairwise_subsequence_distance_len_check (y : List (List ℚ)) (xshape : List ℕ) :
    Except String Unit :=
  if y.any (fun s => s.length > lastAxis xshape) then
    .error "Invalid subsequnce shape"
  else
    .ok ()

/-- The query-length check of `subsequence_match` (lines 440–443): raise
`ValueError` when `y.shape[0] > x.shape[-1]`. -/
def subsequence_match_len_check (y : List ℚ) (xshape : List ℕ) :
    Except String Unit :=
  if y.length > lastAxis xshape then
    .error "Invalid subsequnce shape"
  else
    .ok ()

/-! ## `paired_distance` shape validation (`wildboar/distance/__init__.py`,
lines 713–737)

After `check_array`, the function does `y = np.broadcast_to(y, x.shape)`,
compares `x.ndim` with `y.ndim`, dimension counts and sample counts, and then
runs the non-elastic length guard, whose condition in the source literally
compares `x.shape[x.ndim - 1]` with itself:

    if x.shape[x.ndim - 1] != x.shape[x.ndim - 1] and not metric.is_elastic:
        raise ValueError("Illegal n_timestep (%r != %r) ...")
-/

/-- `np.broadcast_to(y, target)`: align shapes on the right; every dimension of
`y` must equal the corresponding target dimension or be 1, and `y` may not
have more dimensions than the target. -/
def canBroadcastTo (yshape target : List ℕ) : Bool :=
  decide (yshape.length ≤ target.length) &&
    (List.zip yshape.reverse target.reverse).all fun p => p.1 == p.2 || p.1 == 1

/-- The validation prefix of `paired_distance` (lines 713–737).  Returns
`.ok` exactly when control reaches the distance computation.  The final
condition keeps the source's self-comparison
`x.shape[x.ndim - 1] != x.shape[x.ndim - 1]` verbatim. -/
def paired_distance_checks (xshape yshape : List ℕ) (is_elastic : Bool) :
    Except String Unit := do
  if ¬ canBroadcastTo yshape xshape then
    throw "could not broadcast"
  -- after broadcast_to, y has shape x.shape
  let yshape' := xshape
  if xshape.length ≠ yshape'.length then
    throw "x and y are not compatible"
  if xshape.length = 3 ∧ xshape.getD 1 0 ≠ yshape'.getD 1 0 then
    throw "x and y must have the same number of dimensions"
  if xshape.length > 1 ∧ yshape'.length > 1 ∧ xshape.getD 0 0 ≠ yshape'.getD 0 0 then
    throw "x and y must have the same number of samples"
  if lastAxis xshape ≠ lastAxis xshape ∧ ¬ is_elastic then
    throw "Illegal n_timestep for non-elastic distance measure"
  pure ()

/-! ## `matrix_profile` parameter processing (`wildboar/distance/__init__.py`,
lines 1001–1057)

Only the numeric `window`/`exclude` processing is modelled here; the array
shape checks of lines 1003–1018 are a separate concern (the exclusion default
is chosen by whether `y` was supplied, line 1019 versus line 1022).
-/

/-- `window`/`exclude` processing of `matrix_profile`.  `ylen?` is
`y.shape[-1]` when `y` is given, `none` for a self-join (then `y = x` and the
length `xlen` is used).  Returns the converted `(window, exclude)` pair. -/
def matrix_profile_params (xlen : ℕ) (ylen? : Option ℕ) (window : NumArg)
    (exclude : Option NumArg) : Except String (ℕ × ℤ) :=
  let ylen := ylen?.getD xlen
  -- `exclude = exclude if exclude is not None else 0.0` (y given, line 1019)
  -- `exclude = exclude if exclude is not None else 0.2` (self-join, line 1022)
  let excl : NumArg :=
    match exclude, ylen? with
    | some e, _ => e
    | none, some _ => .real 0
    | none, none => .real (1 / 5)
  -- window: int in [1, min(y.shape[-1], x.shape[-1])], or real in (0, 1]
  -- converted by `window = math.ceil(window * y.shape[-1])` (line 1046)
  let w? : Except String ℕ :=
    match window with
    | .int n =>
        if 1 ≤ n ∧ n ≤ (min ylen xlen : ℤ) then .ok n.toNat
        else .error "window out of range"
    | .real q =>
        if 0 < q ∧ q ≤ 1 then .ok ⌈q * (ylen : ℚ)⌉.toNat
        else .error "window out of range"
  match w? with
  | .error e => .error e
  | .ok w =>
    -- exclude: int with min_val=1, or real ≥ 0 converted by
    -- `exclude = math.ceil(window * exclude)` (line 1057)
    match excl with
    | .int n => if 1 ≤ n then .ok (w, n) else .error "exclude out of range"
    | .real q =>
        if 0 ≤ q then .ok (w, ⌈(w : ℚ) * q⌉)
        else .error "exclude out of range"

/-! ## Matching engine (`wildboar/distance/__init__.py`)

A match entry pairs a placement start index with its distance.  Distances are
modelled as exact rationals.  The raw scan `_distance._subsequence_match`
lives in a compiled module; it is modelled from the spec (§4.3): the full
distance vector over all `n - m + 1` placements is computed and the
placements with distance ≤ threshold are kept, in index order.
-/

/-- One match: `(start index, distance)`. -/
abbrev MatchEntry := ℕ × ℚ

/-- Modelled from the spec: the raw threshold scan
`_distance._subsequence_match` (compiled).  Given the distance vector `d`
over all placements (§4.3 "Computes the full distance vector over all
placements"), keep the placements whose distance is ≤ `threshold`
(`⊤` models `np.inf`), in index order. -/
def scanPlacements (threshold : WithTop ℚ) (d : List ℚ) : List MatchEntry :=
  d.enum.filter fun p => (p.2 : WithTop ℚ) ≤ threshold

/-- `_any_in_exclude` (lines 95–99): `True` iff some already-accepted index
`e` satisfies `not (e <= i - exclude or e >= i + exclude)`. -/
def _any_in_exclude (lst : List ℤ) (i exclude : ℤ) : Bool :=
  lst.any fun e => ¬ (e ≤ i - exclude ∨ e ≥ i + exclude)

/-- Processing order of `_exclude_trivial_matches`: ascending distance
(`sort = np.argsort(distance)`).  Entries are paired with their position in
the filtered arrays; ties are resolved stably (numpy's introsort leaves the
order of equal distances unspecified). -/
def distOrder (a b : ℕ × MatchEntry) : Prop := a.2.2 ≤ b.2.2

instance : DecidableRel distOrder := fun a b => inferInstanceAs (Decidable (a.2.2 ≤ b.2.2))

instance : IsTotal (ℕ × MatchEntry) distOrder := ⟨fun a b => le_total a.2.2 b.2.2⟩

instance : IsTrans (ℕ × MatchEntry) distOrder := ⟨fun _ _ _ h h' => le_trans h h'⟩

/-- The greedy acceptance loop of `_exclude_trivial_matches` (lines 113–117):
walk the positions in ascending-distance order; accept a placement iff its
start index is not within `exclude` of any already-accepted start index.
The source keeps the accepted start indices in the Python list `excluded`;
here the accepted entries are kept whole (their indices are what the conflict
test reads). -/
def greedyAccept (exclude : ℤ) : List (ℕ × MatchEntry) → List (ℕ × MatchEntry) →
    List (ℕ × MatchEntry)
  | [], _ => []
  | e :: rest, acc =>
    if _any_in_exclude (acc.map fun a => (a.2.1 : ℤ)) (e.2.1 : ℤ) exclude then
      greedyAccept exclude rest acc
    else
      e :: greedyAccept exclude rest (e :: acc)

/-- `_exclude_trivial_matches` (lines 102–123) for one series: mark the
accepted positions (`idx[sort[i]] = True`) and return the accepted entries in
original order (`index[idx]`, `distance[idx]`). -/
def _exclude_trivial_matches (exclude : ℤ) (ps : List MatchEntry) : List MatchEntry :=
  let kept := greedyAccept exclude (List.insertionSort distOrder ps.enum) []
  (ps.enum.filter fun p => kept.any fun k => k.1 == p.1).map Prod.snd

/-- Ascending-distance order on match entries (used by `np.argsort(distance)`
in `_filter_by_max_matches`). -/
def entryDistOrder (a b : MatchEntry) : Prop := a.2 ≤ b.2

instance : DecidableRel entryDistOrder := fun a b => inferInstanceAs (Decidable (a.2 ≤ b.2))

instance : IsTotal MatchEntry entryDistOrder := ⟨fun a b => le_total a.2 b.2⟩

instance : IsTrans MatchEntry entryDistOrder := ⟨fun _ _ _ h h' => le_trans h h'⟩

/-- `_filter_by_max_matches` (lines 126–138) for one series:
`idx = np.argsort(distance)[:max_matches]` followed by `index[idx]`,
`distance[idx]`: the `max_matches` entries of smallest distance, in
ascending-distance order. -/
def _filter_by_max_matches (max_matches : ℕ) (ps : List MatchEntry) : List MatchEntry :=
  (List.insertionSort entryDistOrder ps).take max_matches

/-- `np.mean` of a rational vector (0 when empty, matching Lean's `0/0 = 0`). -/
def npMean (d : List ℚ) : ℚ := d.sum / d.length

/-- Population variance `np.std(d) ** 2` of a rational vector. -/
def npVar (d : List ℚ) : ℚ := (d.map fun x => (x - npMean d) ^ 2).sum / d.length

/-- `np.min` of a vector (0 for the empty vector, which numpy rejects). -/
def npMin : List ℚ → ℚ
  | [] => 0
  | h :: t => t.foldl min h

/-- The named threshold `_THRESHOLD["best"]` (lines 69–71):
`lambda x: max(np.mean(x) - 2.0 * np.std(x), np.min(x))`.
`np.std` is the square root of the population variance, so the value lives
in `ℝ`. -/
noncomputable def bestThreshold (d : List ℚ) : ℝ :=
  max ((npMean d : ℝ) - 2 * Real.sqrt (npVar d : ℝ)) (npMin d : ℝ)

/-- Decidable form of the comparison `x ≤ bestThreshold d` used to keep the
filter of `_filter_by_max_dist` executable:
`x ≤ mean - 2·√var` is rewritten as `x ≤ mean ∧ 4·var ≤ (mean - x)²`
(`bestKeep_iff` proves the equivalence with `bestThreshold`). -/
def bestKeep (d : List ℚ) (x : ℚ) : Bool :=
  decide (x ≤ npMin d) ||
    (decide (x ≤ npMean d) && decide (4 * npVar d ≤ (npMean d - x) ^ 2))

/-- `_filter_by_max_dist` (lines 141–153) with the `"best"` threshold
function for one series: keep the entries whose distance is ≤ the threshold
computed once from the full distance vector (`idx = max_dist(distance)`). -/
def _filter_by_max_dist_best (ps : List MatchEntry) : List MatchEntry :=
  ps.filter fun p => bestKeep (ps.map Prod.snd) p.2

/-- The `threshold` argument of `subsequence_match`: absent, a numeric value
(`np.inf` is `⊤`), or the named threshold `"best"`. -/
inductive ThresholdArg where
  | noThresh
  | num (t : WithTop ℚ)
  | best

/-- `exclude` processing of `subsequence_match` (lines 482–492): an integral
`exclude` must be ≥ 0 and is used as is; a real `exclude` must be ≥ 0 and is
converted by `exclude = math.ceil(y.size * exclude)`. -/
def subsequence_match_exclude (exclude : Option NumArg) (ylen : ℕ) :
    Except String (Option ℤ) :=
  match exclude with
  | none => .ok none
  | some (.int n) => if 0 ≤ n then .ok (some n) else .error "exclude must be >= 0"
  | some (.real q) =>
      if 0 ≤ q then .ok (some ⌈(ylen : ℚ) * q⌉) else .error "exclude must be >= 0"

/-- The `if exclude:` guard of `subsequence_match` (lines 506–507): suppress
trivial matches only when an exclusion radius was resolved and is non-zero. -/
def applyExclude (exclude : Option ℤ) (ps : List MatchEntry) : List MatchEntry :=
  match exclude with
  | some e => if e ≠ 0 then _exclude_trivial_matches e ps else ps
  | none => ps

/-- The `if max_matches:` guard of `subsequence_match` (lines 509–510): keep
the top matches only when `max_matches` is set and non-zero. -/
def applyMaxMatches (max_matches : Option ℕ) (ps : List MatchEntry) : List MatchEntry :=
  match max_matches with
  | some k => if k ≠ 0 then _filter_by_max_matches k ps else ps
  | none => ps

/-- The filtering pipeline of `subsequence_match` (lines 455–510) for one
series, given the distance vector `d` over all placements:

* `threshold=None` becomes `np.inf`, and `max_matches` defaults to 10
  (lines 455–458);
* the named threshold `"best"` installs the `max_dist` filter and scans with
  `np.inf` (lines 467–473);
* trivial matches are suppressed when `exclude` is non-zero (lines 506–507);
* `max_matches` keeps the top matches by distance (lines 509–510). -/
def subsequenceMatchPipeline (threshold : ThresholdArg) (max_matches : Option ℕ)
    (exclude : Option ℤ) (d : List ℚ) : List MatchEntry :=
  let resolved : WithTop ℚ × Bool × Option ℕ :=
    match threshold with
    | .noThresh => (⊤, false, if max_matches = none then some 10 else max_matches)
    | .num t => (t, false, max_matches)
    | .best => (⊤, true, max_matches)
  let raw := scanPlacements resolved.1 d
  let raw := if resolved.2.1 then _filter_by_max_dist_best raw else raw
  applyMaxMatches resolved.2.2 (applyExclude exclude raw)

/-- `subsequence_match` (lines 344–518) for one series, after array
validation: resolve `exclude`, then run the filtering pipeline on the
distance vector `d` of the query of length `ylen` over all placements. -/
def subsequence_match_result (threshold : ThresholdArg) (max_matches : Option ℕ)
    (exclude : Option NumArg) (ylen : ℕ) (d : List ℚ) :
    Except String (List MatchEntry) :=
  match subsequence_match_exclude exclude ylen with
  | .error e => .error e
  | .ok excl => .ok (subsequenceMatchPipeline threshold max_matches excl d)

/-! ## Metric library

Modelled from the spec: the lock-step metric kernels live in the compiled
module `wildboar/distance/_metric` (only imported from `src`), so the
formulas follow §4.1: lock-step metrics are computed in one linear pass over
equal-length operands; "scaled" variants z-normalize each operand first. -/

/-- Modelled from the spec: Euclidean distance, `√(Σ (aᵢ - bᵢ)²)`. -/
noncomputable def euclidean_distance (a b : List ℝ) : ℝ :=
  Real.sqrt (List.zipWith (fun u v => (u - v) ^ 2) a b).sum

/-- Modelled from the spec: normalized Euclidean distance — the Euclidean
formula with the squared sum normalized by the length. -/
noncomputable def normalized_euclidean_distance (a b : List ℝ) : ℝ :=
  Real.sqrt ((List.zipWith (fun u v => (u - v) ^ 2) a b).sum / a.length)

/-- Modelled from the spec: Manhattan distance, `Σ |aᵢ - bᵢ|`. -/
def manhattan_distance (a b : List ℝ) : ℝ :=
  (List.zipWith (fun u v => |u - v|) a b).sum

/-- Modelled from the spec: Minkowski distance of order `p`,
`(Σ |aᵢ - bᵢ|ᵖ)^(1/p)` (a non-positive order is a configuration error). -/
noncomputable def minkowski_distance (p : ℝ) (a b : List ℝ) : ℝ :=
  (List.zipWith (fun u v => |u - v| ^ p) a b).sum ^ (1 / p)

/-- Modelled from the spec: Chebyshev distance, `max |aᵢ - bᵢ|`. -/
def chebyshev_distance (a b : List ℝ) : ℝ :=
  (List.zipWith (fun u v => |u - v|) a b).foldr max 0

/-- Dot product `Σ aᵢ·bᵢ` of two equal-length sequences. -/
def dotProduct (a b : List ℝ) : ℝ := (List.zipWith (· * ·) a b).sum

/-- Modelled from the spec: cosine distance,
`1 - Σ aᵢbᵢ / (√(Σ aᵢ²)·√(Σ bᵢ²))`. -/
noncomputable def cosine_distance (a b : List ℝ) : ℝ :=
  1 - dotProduct a b / (Real.sqrt (dotProduct a a) * Real.sqrt (dotProduct b b))

/-- Modelled from the spec: angular distance, the arc length
`arccos(cosine similarity) / π`. -/
noncomputable def angular_distance (a b : List ℝ) : ℝ :=
  Real.arccos (dotProduct a b / (Real.sqrt (dotProduct a a) * Real.sqrt (dotProduct b b)))
    / Real.pi

/-- Mean of a real sequence. -/
noncomputable def seqMean (a : List ℝ) : ℝ := a.sum / a.length

/-- Population standard deviation of a real sequence. -/
noncomputable def seqStd (a : List ℝ) : ℝ :=
  Real.sqrt ((a.map fun v => (v - seqMean a) ^ 2).sum / a.length)

/-- Modelled from the spec: z-normalization `(v - mean) / std`.  For a
constant sequence the deviations are 0, so with Lean's `0 / 0 = 0` the
z-normalized sequence is all zeros, realizing the spec's zero-variance guard
("treating distance as 0 when both operands are constant"). -/
noncomputable def znormalize (a : List ℝ) : List ℝ :=
  a.map fun v => (v - seqMean a) / seqStd a

/-- Modelled from the spec: scaled (z-normalized) Euclidean distance. -/
noncomputable def scaled_euclidean_distance (a b : List ℝ) : ℝ :=
  euclidean_distance (znormalize a) (znormalize b)

/-- The self-join fast path of `pairwise_distance`
(`wildboar/distance/__init__.py` lines 834–841): when `y` is omitted,
`y = x`, and a 1-D `x` immediately returns the scalar `0.0` with no distance
computation.  `none` means the input is not 1-D and the full pairwise matrix
is computed instead. -/
def pairwise_distance_self_scalar (xndim : ℕ) : Option ℚ :=
  if xndim = 1 then some 0 else none

/-! ## Shapelet tree (`wildboar/tree.py`)

The estimator layer (`BaseShapeletTree.__init__`, `_make_tree_builder`,
`fit`) is translated from `wildboar/tree.py`.  The tree growth itself
(`_tree_builder`, a compiled Cython module) and numpy's `RandomState` are
modelled from the spec (§4.5, §5): tree growth is a deterministic function
of the training data and the random stream, and the stream is a
deterministically seeded sequence of draws. -/

/-- Modelled from the spec: a `numpy.random.RandomState` stream, reduced to
its current position in a deterministic pseudo-random sequence (§5: each
builder uses "an independently seeded random stream derived deterministically
from a master seed"). -/
structure RandomState where
  state : ℕ
deriving DecidableEq, Repr

/-- A linear-congruential step standing in for the concrete generator. -/
def lcg (s : ℕ) : ℕ := (s * 1103515245 + 12345) % 2 ^ 31

/-- Draw one pseudo-random number, advancing the stream. -/
def RandomState.next (r : RandomState) : ℕ × RandomState :=
  (lcg r.state, ⟨lcg r.state⟩)

/-- Draw a nonnegative integer below `n`, advancing the stream. -/
def RandomState.randint (r : RandomState) (n : ℕ) : ℕ × RandomState :=
  let (v, r') := r.next
  (if n = 0 then 0 else v % n, r')

/-- The argument accepted for `random_state`: an integer seed or an existing
`RandomState` instance (`None` — the global `np.random` stream — is out of
scope). -/
inductive RandomStateArg where
  | seed (n : ℕ)
  | inst (r : RandomState)

/-- `sklearn.utils.check_random_state`: an integer seed creates a fresh
`RandomState(seed)`; an existing `RandomState` instance is returned as is
(this is the documented sklearn behaviour relied on by `tree.py`). -/
def check_random_state : RandomStateArg → RandomState
  | .seed n => ⟨n⟩
  | .inst r => r

/-- The estimator state set up by `BaseShapeletTree.__init__`
(`tree.py` lines 41–68); `random_state` already holds the **converted**
`RandomState` object (line 60: `self.random_state =
check_random_state(random_state)`). -/
structure ShapeletTreeClassifier where
  max_depth : ℕ
  min_samples_split : ℕ
  n_shapelets : ℕ
  min_shapelet_size : ℚ
  max_shapelet_size : ℚ
  random_state : RandomState
deriving DecidableEq, Repr

/-- `BaseShapeletTree.__init__` / `ShapeletTreeClassifier.__init__`
(`tree.py` lines 41–68): validate the shapelet-size fractions, default
`max_depth` to `2 ** 31`, and store `check_random_state(random_state)`. -/
def mkShapeletTreeClassifier (max_depth : Option ℕ) (min_samples_split n_shapelets : ℕ)
    (min_shapelet_size max_shapelet_size : ℚ) (random_state : RandomStateArg) :
    Except String ShapeletTreeClassifier :=
  if min_shapelet_size < 0 ∨ min_shapelet_size > max_shapelet_size then
    .error "`min_shapelet_size`"
  else if max_shapelet_size > 1 then
    .error "`max_shapelet_size`"
  else
    .ok { max_depth := max_depth.getD (2 ^ 31)
          min_samples_split
          n_shapelets
          min_shapelet_size
          max_shapelet_size
          random_state := check_random_state random_state }

/-- A built shapelet tree: internal nodes own a shapelet and a threshold,
leaves own a class-frequency vector (§3, §4.5). -/
inductive STree where
  | leaf (dist : List ℚ)
  | node (shapelet : List ℚ) (threshold : ℚ) (left right : STree)
deriving DecidableEq, Repr

/-- Number of nodes. -/
def STree.size : STree → ℕ
  | .leaf _ => 1
  | .node _ _ l r => 1 + l.size + r.size

/-- Flatten a tree into per-node `(threshold, left_child, right_child)` rows,
ids assigned in depth-first preorder with the root at id 0, and the sentinel
`-1` marking a leaf's children (§3). -/
def STree.flatten : STree → ℕ → List (ℚ × ℤ × ℤ)
  | .leaf _, _ => [(0, -1, -1)]
  | .node _ t l r, base =>
      (t, (base : ℤ) + 1, (base : ℤ) + 1 + l.size) ::
        (l.flatten (base + 1) ++ r.flatten (base + 1 + l.size))

/-- The `threshold[]` array of the array-tree representation. -/
def STree.thresholdArray (t : STree) : List ℚ := (t.flatten 0).map (·.1)

/-- The `left_child[]` array of the array-tree representation. -/
def STree.leftChildArray (t : STree) : List ℤ := (t.flatten 0).map (·.2.1)

/-- The `right_child[]` array of the array-tree representation. -/
def STree.rightChildArray (t : STree) : List ℤ := (t.flatten 0).map (·.2.2)

/-- Builder configuration assembled by `_make_tree_builder`
(`tree.py` lines 409–428). -/
structure BuilderCfg where
  n_shapelets : ℕ
  min_len : ℕ
  max_len : ℕ
  max_depth : ℕ
  min_samples_split : ℕ
  n_classes : ℕ

/-- Modelled from the spec: the subsequence search used by the builder for
the default Euclidean metric, in squared space (the squared Euclidean
distance is a monotone transform of the Euclidean distance; the builder only
compares distances and takes midpoints, so squared space keeps all split
decisions and both-run comparisons identical while staying in `ℚ`). -/
def slidingMinSqDist (sh series : List ℚ) : ℚ :=
  let m := sh.length
  let cands := (List.range (series.length - m + 1)).map fun s =>
    (List.zipWith (fun u v => (u - v) ^ 2) ((series.drop s).take m) sh).sum
  match cands with
  | [] => 0
  | h :: t => t.foldl min h

/-- Per-class counts of a label list. -/
def classCounts (n_classes : ℕ) (ls : List ℕ) : List ℕ :=
  (List.range n_classes).map fun c => ls.count c

/-- Gini impurity `1 - Σ pᶜ²` of a label list (§4.5 step 3). -/
def gini (n_classes : ℕ) (ls : List ℕ) : ℚ :=
  if ls.length = 0 then 0
  else 1 - ((classCounts n_classes ls).map fun c => ((c : ℚ) / ls.length) ^ 2).sum

/-- Impurity decrease of splitting the (distance, label) pairs `dl` at
threshold `t` (§4.5 step 3): parent impurity minus the size-weighted child
impurities; left is `distance ≤ t`. -/
def impurityDecrease (n_classes : ℕ) (dl : List (ℚ × ℕ)) (t : ℚ) : ℚ :=
  let l := dl.filter fun p => p.1 ≤ t
  let r := dl.filter fun p => ¬ p.1 ≤ t
  gini n_classes (dl.map Prod.snd)
    - ((l.length : ℚ) / dl.length) * gini n_classes (l.map Prod.snd)
    - ((r.length : ℚ) / dl.length) * gini n_classes (r.map Prod.snd)

/-- Ascending order on (distance, label) pairs used for the threshold scan. -/
def dlOrder (a b : ℚ × ℕ) : Prop := a.1 ≤ b.1

instance : DecidableRel dlOrder := fun a b => inferInstanceAs (Decidable (a.1 ≤ b.1))

instance : IsTotal (ℚ × ℕ) dlOrder := ⟨fun a b => le_total a.1 b.1⟩

instance : IsTrans (ℚ × ℕ) dlOrder := ⟨fun _ _ _ h h' => le_trans h h'⟩

/-- Candidate thresholds (§4.5 step 3): the midpoints of adjacent pairs in
the distance-sorted scan, skipping equal neighbours (an equal pair yields no
split). -/
def midpointCandidates (dl : List (ℚ × ℕ)) : List ℚ :=
  let s := List.insertionSort dlOrder dl
  (s.zip s.tail).filterMap fun p =>
    if p.1.1 = p.2.1 then none else some ((p.1.1 + p.2.1) / 2)

/-- Best threshold for one candidate shapelet: scan all midpoints, keeping
the first-encountered maximum impurity decrease (§4.5 step 3). -/
def bestSplit (n_classes : ℕ) (dl : List (ℚ × ℕ)) : Option (ℚ × ℚ) :=
  (midpointCandidates dl).foldl
    (fun acc t =>
      let s := impurityDecrease n_classes dl t
      match acc with
      | none => some (t, s)
      | some (t0, s0) => if s > s0 then some (t, s) else some (t0, s0))
    none

/-- Modelled from the spec (§4.5 step 2): sample one candidate shapelet —
a uniformly random training sample of the node, a uniformly random length in
`[min_len, max_len]` and a uniformly random start offset (the data is
single-dimensional, so no dimension draw).  The values are copied out. -/
def sampleShapelet (cfg : BuilderCfg) (x : List (List ℚ)) (samples : List ℕ)
    (r : RandomState) : List ℚ × RandomState :=
  let n_timestep := (x.headD []).length
  let (si, r1) := r.randint samples.length
  let sampleIdx := samples.getD si 0
  let (li, r2) := r1.randint (cfg.max_len - cfg.min_len + 1)
  let len := cfg.min_len + li
  let (st, r3) := r2.randint (n_timestep - len + 1)
  (((x.getD sampleIdx []).drop st).take len, r3)

/-- Modelled from the spec (§4.5 steps 2–3): sample `k` candidates in order,
score each by its best threshold, and keep the best `(shapelet, threshold,
decrease)` triple, ties broken by first-encountered candidate. -/
def bestCandidate (cfg : BuilderCfg) (x : List (List ℚ)) (y : List ℕ)
    (samples : List ℕ) :
    ℕ → RandomState → Option (List ℚ × ℚ × ℚ) → Option (List ℚ × ℚ × ℚ) × RandomState
  | 0, r, best => (best, r)
  | k + 1, r, best =>
    let (sh, r') := sampleShapelet cfg x samples r
    let dl := samples.map fun s => (slidingMinSqDist sh (x.getD s []), y.getD s 0)
    let best' :=
      match bestSplit cfg.n_classes dl with
      | none => best
      | some (t, sc) =>
        match best with
        | none => some (sh, t, sc)
        | some (sh0, t0, sc0) =>
            if sc > sc0 then some (sh, t, sc) else some (sh0, t0, sc0)
    bestCandidate cfg x y samples k r' best'

/-- Leaf statistics (§4.5): the normalized class-frequency vector of the
node's samples. -/
def leafOf (n_classes : ℕ) (y : List ℕ) (samples : List ℕ) : STree :=
  let ls := samples.map fun s => y.getD s 0
  .leaf ((List.range n_classes).map fun c => (ls.count c : ℚ) / ls.length)

/-- A node is pure when all its samples share one label (§4.5 step 1). -/
def isPure (y : List ℕ) (samples : List ℕ) : Bool :=
  match samples with
  | [] => true
  | s :: t => t.all fun u => y.getD u 0 == y.getD s 0

/-- Modelled from the spec (§4.5): grow one node — stopping test, candidate
generation and scoring, split acceptance, recursive growth of the two
partitions.  `fuel` bounds the recursion depth (every accepted split has two
non-empty children, so `x.length` levels always suffice). -/
def buildNode (cfg : BuilderCfg) (x : List (List ℚ)) (y : List ℕ) :
    ℕ → List ℕ → ℕ → RandomState → STree × RandomState
  | 0, samples, _, r => (leafOf cfg.n_classes y samples, r)
  | fuel + 1, samples, depth, r =>
    if samples.length < cfg.min_samples_split ∨ cfg.max_depth ≤ depth ∨ isPure y samples then
      (leafOf cfg.n_classes y samples, r)
    else
      let (best, r1) := bestCandidate cfg x y samples cfg.n_shapelets r none
      match best with
      | none => (leafOf cfg.n_classes y samples, r1)
      | some (sh, t, _) =>
        let left := samples.filter fun s => slidingMinSqDist sh (x.getD s []) ≤ t
        let right := samples.filter fun s => ¬ slidingMinSqDist sh (x.getD s []) ≤ t
        let (lt, r2) := buildNode cfg x y fuel left (depth + 1) r1
        let (rt, r3) := buildNode cfg x y fuel right (depth + 1) r2
        (.node sh t lt rt, r3)

/-- Modelled from the spec: `build_tree` of the compiled builder — grow the
tree from the root holding every training sample index, consuming the given
random stream and returning its advanced state (the Cython builder mutates
the shared `RandomState` object in place). -/
def build_tree (cfg : BuilderCfg) (x : List (List ℚ)) (y : List ℕ)
    (r : RandomState) : STree × RandomState :=
  buildNode cfg x y (x.length + 1) (List.range x.length) 0 r

/-- `ShapeletTreeClassifier.fit` + `_make_tree_builder` (`tree.py` lines
409–428 and 430–499): re-run `check_random_state` on the **stored**
`RandomState` object (which returns that same object), convert the shapelet
size fractions (`int(n_timestep * fraction)`, floored to at least 2), build
the tree, and keep the advanced stream in the estimator.  Labels are assumed
already relabelled to `0..n_classes-1` (the `np.unique(..., return_inverse)`
step). -/
def ShapeletTreeClassifier.fit (est : ShapeletTreeClassifier)
    (x : List (List ℚ)) (y : List ℕ) : STree × ShapeletTreeClassifier :=
  let n_timestep := (x.headD []).length
  let n_classes := y.foldl max 0 + 1
  let r := check_random_state (.inst est.random_state)
  let min_len := ⌊(n_timestep : ℚ) * est.min_shapelet_size⌋.toNat
  let cfg : BuilderCfg :=
    { n_shapelets := est.n_shapelets
      min_len := if min_len < 2 then 2 else min_len
      max_len := ⌊(n_timestep : ℚ) * est.max_shapelet_size⌋.toNat
      max_depth := est.max_depth
      min_samples_split := est.min_samples_split
      n_classes }
  let (tree, r') := build_tree cfg x y r
  (tree, { est with random_state := r' })

/-- Fit the same estimator object twice on the same data, as two successive
`fit` calls on one instance do in Python; returns both built trees. -/
def fitTwice (est : ShapeletTreeClassifier) (x : List (List ℚ)) (y : List ℕ) :
    STree × STree :=
  let (t1, est1) := est.fit x y
  let (t2, _) := est1.fit x y
  (t1, t2)

/-- A small labelled training set used as the concrete fixture for the
reproducibility analysis: four series of four steps. -/
def demoTrainX : List (List ℚ) := [[0, 1, 2, 3], [1, 2, 1, 0], [5, 1, 0, 2], [3, 3, 3, 3]]

/-- Labels of the fixture (two classes). -/
def demoTrainY : List ℕ := [0, 0, 1, 1]

/-- The estimator state produced by
`ShapeletTreeClassifier(n_shapelets=2, random_state=1)` (all other
parameters at their defaults): `__init__` has already converted the integer
seed into a stored `RandomState` object. -/
def demoEstimator : ShapeletTreeClassifier :=
  { max_depth := 2 ^ 31
    min_samples_split := 2
    n_shapelets := 2
    min_shapelet_size := 0
    max_shapelet_size := 1
    random_state := check_random_state (.seed 1) }

/-! ## Theorems -/

-- Batteries marks the `Rat` arithmetic operations `@[irreducible]`; concrete
-- evaluations below need them unfolded.
set_option allowUnsafeReducibility true

attribute [local semireducible] Rat.mul Rat.add Rat.sub Rat.inv

/-- `npArgmaxBool` after prepending `False`, in terms of the first `true`. -/
theorem npArgmaxBool_false_cons (l : List Bool) :
    npArgmaxBool (false :: l) =
      match l.findIdx? (· = true) with
      | none => 0
      | some i => i + 1 := by
  unfold npArgmaxBool
  rw [List.findIdx?_cons]
  simp only [List.findIdx?_succ]
  cases l.findIdx? (· = true) <;> simp

/-- C10: `get_variable_length` on a 1-D array returns the index of the first
element recognized by `is_end_of_series` — a NaN whose low four mantissa bits
equal 9 — and the full array length when no such element occurs; the sentinel
`0x7FF0000000000009` is recognized, while a NaN whose low four bits differ
from 9 is never classified as end-of-series. -/
theorem C10_get_variable_length :
    (∀ x : List ℕ, get_variable_length x = x.findIdx is_end_of_series) ∧
    is_end_of_series eosBits = true ∧
    (∀ b : ℕ, isnanBits b = true → b % 16 ≠ 9 → is_end_of_series b = false) := by
  refine ⟨fun x => ?_, by decide, fun b _ h9 => ?_⟩
  · have harg := npArgmaxBool_false_cons (x.map is_end_of_series)
    have hmap : (x.map is_end_of_series).findIdx? (· = true) = x.findIdx? is_end_of_series := by
      rw [List.findIdx?_map]
      congr 1
      funext a
      simp [Function.comp]
    rw [hmap] at harg
    simp only [get_variable_length, harg]
    cases hfi : x.findIdx? is_end_of_series with
    | none =>
        dsimp only
        rw [if_pos (by omega)]
        have := List.findIdx?_eq_none_iff.1 hfi
        exact (List.findIdx_eq_length.2 this).symm
    | some i =>
        dsimp only
        simp only [Int.ofNat_eq_natCast, Nat.cast_add, Nat.cast_one]
        have h := List.findIdx?_eq_some_iff_findIdx_eq.1 hfi
        rw [if_neg (by omega)]
        omega
  · unfold is_end_of_series
    simp [h9]

/-- C10 witness: the quiet NaN `0x7FF8000000000000` is a NaN, its low four
bits are 0 ≠ 9, and it is not classified as end-of-series. -/
theorem C10_get_variable_length_witness :
    (isnanBits 0x7FF8000000000000 = true ∧ 0x7FF8000000000000 % 16 ≠ 9) ∧
    is_end_of_series 0x7FF8000000000000 = false :=
  ⟨by decide, C10_get_variable_length.2.2 0x7FF8000000000000 (by decide) (by decide)⟩

/-- C3: the chained comparison `0 >= dim < n_dims` used by
`paired_subsequence_distance`, `subsequence_match` and
`paired_subsequence_match` **rejects** the in-range dimension `dim = 1` of a
`(1, 2, 4)`-shaped array (`n_dims = 2`, so `0 ≤ 1 < 2`), and **accepts** the
out-of-range `dim = -1` — the code contradicts its own error message
"The parameter dim must be 0 <= dim < n_dims". -/
theorem C3_dim_check_contradicts_message :
    nDimsOfShape [1, 2, 4] = 2 ∧
    subsequence_match_dim_ok 1 [1, 2, 4] = false ∧
    paired_subsequence_distance_dim_ok 1 [1, 2, 4] = false ∧
    paired_subsequence_match_dim_ok 1 [1, 2, 4] = false ∧
    subsequence_match_dim_ok (-1) [1, 2, 4] = true ∧
    (∀ dim : ℤ, ∀ shape : List ℕ,
      dimCheckPasses dim (nDimsOfShape shape) = true ↔
        dim ≤ 0 ∧ dim < nDimsOfShape shape) := by
  refine ⟨by decide, by decide, by decide, by decide, by decide, fun dim shape => ?_⟩
  unfold dimCheckPasses
  simp [ge_iff_le]

/-- C4: `paired_distance` never raises the non-elastic length guard: its
condition compares `x.shape[x.ndim - 1]` with itself.  For the 2-D inputs
`x` of shape `(1, 3)` and `y` of shape `(1, 1)` — equal sample counts,
differing series lengths, non-elastic metric — `np.broadcast_to` stretches
`y` and validation succeeds, so the distance computation is reached and a
value is returned instead of a shape error. -/
theorem C4_paired_distance_dead_length_guard :
    paired_distance_checks [1, 3] [1, 1] false = .ok () ∧
    lastAxis [1, 3] ≠ lastAxis [1, 1] ∧
    (∀ xshape yshape : List ℕ, ∀ el : Bool,
      canBroadcastTo yshape xshape = true →
        paired_distance_checks xshape yshape el = .ok ()) := by
  refine ⟨by rfl, by decide, fun xshape yshape el h => ?_⟩
  unfold paired_distance_checks
  simp [h, pure, Except.pure, bind, Except.bind]

/-- C4 witness: the broadcastable shapes of the failing input, with the
validation succeeding. -/
theorem C4_paired_distance_dead_length_guard_witness :
    canBroadcastTo [1, 1] [1, 3] = true ∧
    paired_distance_checks [1, 3] [1, 1] false = .ok () :=
  ⟨by decide, C4_paired_distance_dead_length_guard.2.2 [1, 3] [1, 1] false (by decide)⟩

/-- C8: the query-length validations of `pairwise_subsequence_distance` and
`subsequence_match` succeed exactly when every query is no longer than the
target's last axis, and raise the `"Invalid subsequnce shape"` error exactly
when some query is strictly longer. -/
theorem C8_query_length_validation :
    (∀ (y : List (List ℚ)) (xshape : List ℕ),
      (pairwise_subsequence_distance_len_check y xshape = .ok () ↔
        ∀ s ∈ y, s.length ≤ lastAxis xshape) ∧
      (pairwise_subsequence_distance_len_check y xshape =
          .error "Invalid subsequnce shape" ↔
        ∃ s ∈ y, lastAxis xshape < s.length)) ∧
    (∀ (y : List ℚ) (xshape : List ℕ),
      (subsequence_match_len_check y xshape = .ok () ↔
        y.length ≤ lastAxis xshape) ∧
      (subsequence_match_len_check y xshape = .error "Invalid subsequnce shape" ↔
        lastAxis xshape < y.length)) := by
  constructor
  · intro y xshape
    have hif : ((y.any fun s => s.length > lastAxis xshape) = true) ↔
        ∃ s ∈ y, lastAxis xshape < s.length := by
      rw [List.any_eq_true]; simp [gt_iff_lt]
    unfold pairwise_subsequence_distance_len_check
    by_cases h : ∃ s ∈ y, lastAxis xshape < s.length
    · rw [if_pos (hif.2 h)]
      obtain ⟨s, hs, hlen⟩ := h
      refine ⟨⟨fun hc => by simp at hc, fun hall => absurd (hall s hs) (by omega)⟩, ?_⟩
      exact ⟨fun _ => ⟨s, hs, hlen⟩, fun _ => rfl⟩
    · rw [if_neg fun hc => h (hif.1 hc)]
      refine ⟨⟨fun _ s hs => ?_, fun _ => rfl⟩, ?_⟩
      · exact le_of_not_lt fun hlt => h ⟨s, hs, hlt⟩
      · exact ⟨fun hc => by simp at hc, fun hc => absurd hc h⟩
  · intro y xshape
    unfold subsequence_match_len_check
    by_cases h : lastAxis xshape < y.length
    · rw [if_pos (by simpa using h)]
      refine ⟨⟨fun hc => by simp at hc, fun hle => absurd h (not_lt.2 hle)⟩, ?_⟩
      exact ⟨fun _ => h, fun _ => rfl⟩
    · rw [if_neg (by simpa using h)]
      refine ⟨⟨fun _ => not_lt.1 h, fun _ => rfl⟩, ?_⟩
      exact ⟨fun hc => by simp at hc, fun hlt => absurd hlt h⟩

/-- C7: `matrix_profile`'s default exclusion radius is
`ceil(window × 1/5)` for a self-join (`y` omitted), `0` for a cross-join
(`y` given, default `0.0` and `ceil(window × 0) = 0`), and a user-supplied
fractional `exclude` is converted to `ceil(window × exclude)` in both the
self-join and the cross-join case — `window` being the already-converted
integer window. -/
theorem C7_matrix_profile_exclude_defaults :
    ∀ (xlen ylen : ℕ) (w : ℤ) (q : ℚ),
      (1 ≤ w → w ≤ (min xlen xlen : ℕ) →
        matrix_profile_params xlen none (.int w) none =
          .ok (w.toNat, ⌈(w.toNat : ℚ) * (1 / 5)⌉)) ∧
      (1 ≤ w → w ≤ (min ylen xlen : ℕ) →
        matrix_profile_params xlen (some ylen) (.int w) none = .ok (w.toNat, 0)) ∧
      (0 ≤ q → 1 ≤ w → w ≤ (min xlen xlen : ℕ) →
        matrix_profile_params xlen none (.int w) (some (.real q)) =
          .ok (w.toNat, ⌈(w.toNat : ℚ) * q⌉)) ∧
      (0 ≤ q → 1 ≤ w → w ≤ (min ylen xlen : ℕ) →
        matrix_profile_params xlen (some ylen) (.int w) (some (.real q)) =
          .ok (w.toNat, ⌈(w.toNat : ℚ) * q⌉)) := by
  intro xlen ylen w q
  refine ⟨fun h1 h2 => ?_, fun h1 h2 => ?_, fun hq h1 h2 => ?_, fun hq h1 h2 => ?_⟩
  · unfold matrix_profile_params
    dsimp only [Option.getD]
    rw [if_pos ⟨h1, by simpa using h2⟩]
    dsimp only
    rw [if_pos (by norm_num)]
  · unfold matrix_profile_params
    dsimp only [Option.getD]
    rw [if_pos ⟨h1, by simpa using h2⟩]
    dsimp only
    rw [if_pos (by norm_num)]
    norm_num
  · unfold matrix_profile_params
    dsimp only [Option.getD]
    rw [if_pos ⟨h1, by simpa using h2⟩]
    dsimp only
    rw [if_pos hq]
  · unfold matrix_profile_params
    dsimp only [Option.getD]
    rw [if_pos ⟨h1, by simpa using h2⟩]
    dsimp only
    rw [if_pos hq]

/-- C7 witness: `window = 4` on series of lengths 10 and 8, fractional
`exclude = 1/2`: the self-join default is `⌈4/5⌉ = 1`, the cross-join
default is 0, and the user-supplied fraction gives `⌈4 · 1/2⌉ = 2` in the
self-join and in the cross-join alike. -/
theorem C7_matrix_profile_exclude_defaults_witness :
    ((1 : ℤ) ≤ 4 ∧ (4 : ℤ) ≤ (min 10 10 : ℕ) ∧ (4 : ℤ) ≤ (min 8 10 : ℕ) ∧ (0 : ℚ) ≤ 1 / 2) ∧
    matrix_profile_params 10 none (.int 4) none = .ok (4, ⌈((4 : ℤ).toNat : ℚ) * (1 / 5)⌉) ∧
    matrix_profile_params 10 (some 8) (.int 4) none = .ok (4, 0) ∧
    matrix_profile_params 10 none (.int 4) (some (.real (1 / 2))) =
      .ok (4, ⌈((4 : ℤ).toNat : ℚ) * (1 / 2)⌉) ∧
    matrix_profile_params 10 (some 8) (.int 4) (some (.real (1 / 2))) =
      .ok (4, ⌈((4 : ℤ).toNat : ℚ) * (1 / 2)⌉) :=
  ⟨by norm_num,
   (C7_matrix_profile_exclude_defaults 10 8 4 (1 / 2)).1 (by norm_num) (by norm_num),
   (C7_matrix_profile_exclude_defaults 10 8 4 (1 / 2)).2.1 (by norm_num) (by norm_num),
   (C7_matrix_profile_exclude_defaults 10 8 4 (1 / 2)).2.2.1 (by norm_num) (by norm_num)
     (by norm_num),
   (C7_matrix_profile_exclude_defaults 10 8 4 (1 / 2)).2.2.2 (by norm_num) (by norm_num)
     (by norm_num)⟩

/-- A pairwise relation holding of every pair holds of every list. -/
theorem pairwise_of_forall_rel {α : Type} {R : α → α → Prop} (h : ∀ a b, R a b) :
    ∀ l : List α, l.Pairwise R
  | [] => .nil
  | a :: l => .cons (fun b _ => h a b) (pairwise_of_forall_rel h l)

/-- `_any_in_exclude` finds an accepted index within distance `exclude`. -/
theorem any_in_exclude_iff (lst : List ℤ) (i exclude : ℤ) :
    _any_in_exclude lst i exclude = true ↔ ∃ e ∈ lst, |e - i| < exclude := by
  unfold _any_in_exclude
  rw [List.any_eq_true]
  refine exists_congr fun e => and_congr_right fun _ => ?_
  rw [decide_eq_true_eq, abs_lt]
  omega

/-- When `_any_in_exclude` reports no conflict, every accepted index is at
least `exclude` away. -/
theorem sep_of_not_any {lst : List ℤ} {i exclude : ℤ}
    (h : ¬ _any_in_exclude lst i exclude = true) :
    ∀ a ∈ lst, exclude ≤ |a - i| := by
  intro a ha
  by_contra hcon
  push_neg at hcon
  exact h ((any_in_exclude_iff lst i exclude).2 ⟨a, ha, hcon⟩)

/-- The greedy loop only ever accepts entries of its input list. -/
theorem greedyAccept_sublist (ex : ℤ) :
    ∀ (l acc : List (ℕ × MatchEntry)), List.Sublist (greedyAccept ex l acc) l
  | [], _ => by simp [greedyAccept]
  | e :: rest, acc => by
    simp only [greedyAccept]
    by_cases hc : _any_in_exclude (acc.map fun a => (a.2.1 : ℤ)) (e.2.1 : ℤ) ex = true
    · rw [if_pos hc]
      exact (greedyAccept_sublist ex rest acc).cons e
    · rw [if_neg hc]
      exact (greedyAccept_sublist ex rest (e :: acc)).cons₂ e

/-- Invariant of the greedy loop: if the accumulator is pairwise separated,
so is the accepted output together with the accumulator. -/
theorem greedyAccept_pairwise (ex : ℤ) :
    ∀ (l acc : List (ℕ × MatchEntry)),
      acc.Pairwise (fun a b => ex ≤ |(a.2.1 : ℤ) - (b.2.1 : ℤ)|) →
      (greedyAccept ex l acc ++ acc).Pairwise
        (fun a b => ex ≤ |(a.2.1 : ℤ) - (b.2.1 : ℤ)|)
  | [], acc => fun hacc => by simpa [greedyAccept] using hacc
  | e :: rest, acc => fun hacc => by
    have hsymm : ∀ {a b : ℕ × MatchEntry},
        ex ≤ |(a.2.1 : ℤ) - (b.2.1 : ℤ)| → ex ≤ |(b.2.1 : ℤ) - (a.2.1 : ℤ)| := by
      intro a b h
      rwa [abs_sub_comm]
    simp only [greedyAccept]
    by_cases hc : _any_in_exclude (acc.map fun a => (a.2.1 : ℤ)) (e.2.1 : ℤ) ex = true
    · rw [if_pos hc]
      exact greedyAccept_pairwise ex rest acc hacc
    · rw [if_neg hc]
      have hsep : ∀ a ∈ acc, ex ≤ |(a.2.1 : ℤ) - (e.2.1 : ℤ)| := by
        intro a ha
        exact sep_of_not_any hc _ (List.mem_map_of_mem _ ha)
      have hacc' : (e :: acc).Pairwise (fun a b => ex ≤ |(a.2.1 : ℤ) - (b.2.1 : ℤ)|) :=
        .cons (fun b hb => hsymm (hsep b hb)) hacc
      have ih := greedyAccept_pairwise ex rest (e :: acc) hacc'
      have hperm : (greedyAccept ex rest (e :: acc) ++ e :: acc).Perm
          (e :: (greedyAccept ex rest (e :: acc) ++ acc)) := List.perm_middle
      exact (hperm.pairwise_iff fun h => hsymm h).1 ih

/-- Rejected entries of the greedy loop: walking a distance-sorted list, a
rejected entry conflicts with an accepted (or pre-accumulated) entry of
smaller-or-equal distance. -/
theorem greedyAccept_rejected (ex : ℤ) :
    ∀ (l acc : List (ℕ × MatchEntry)),
      l.Sorted distOrder →
      (∀ p ∈ l, ∀ a ∈ acc, a.2.2 ≤ p.2.2) →
      ∀ p ∈ l, p ∉ greedyAccept ex l acc →
        ∃ a, (a ∈ greedyAccept ex l acc ∨ a ∈ acc) ∧
          |(a.2.1 : ℤ) - (p.2.1 : ℤ)| < ex ∧ a.2.2 ≤ p.2.2 := by
  intro l
  induction l with
  | nil => intro acc _ _ p hp; exact absurd hp (List.not_mem_nil p)
  | cons e rest ih =>
    intro acc hsort hacc p hp hrej
    have hsort' : rest.Sorted distOrder := hsort.of_cons
    have hhead : ∀ q ∈ rest, e.2.2 ≤ q.2.2 := fun q hq =>
      List.rel_of_sorted_cons hsort q hq
    by_cases hc : _any_in_exclude (acc.map fun a => (a.2.1 : ℤ)) (e.2.1 : ℤ) ex = true
    · have hres : greedyAccept ex (e :: rest) acc = greedyAccept ex rest acc := by
        show (if _any_in_exclude (acc.map fun a => (a.2.1 : ℤ)) (e.2.1 : ℤ) ex then
            greedyAccept ex rest acc else e :: greedyAccept ex rest (e :: acc)) =
          greedyAccept ex rest acc
        rw [if_pos hc]
      rcases List.mem_cons.1 hp with hpe | hpr
      · obtain ⟨v, hv, hconf⟩ := (any_in_exclude_iff
            (acc.map fun a => (a.2.1 : ℤ)) (e.2.1 : ℤ) ex).1 hc
        obtain ⟨a, ha, hav⟩ := List.mem_map.1 hv
        refine ⟨a, .inr ha, ?_, hacc p hp a ha⟩
        have : ((a.2.1 : ℤ)) = v := hav
        rw [this, hpe]
        exact hconf
      · rw [hres] at hrej ⊢
        exact ih acc hsort' (fun q hq => hacc q (List.mem_cons_of_mem _ hq)) p hpr hrej
    · have hres : greedyAccept ex (e :: rest) acc =
          e :: greedyAccept ex rest (e :: acc) := by
        show (if _any_in_exclude (acc.map fun a => (a.2.1 : ℤ)) (e.2.1 : ℤ) ex then
            greedyAccept ex rest acc else e :: greedyAccept ex rest (e :: acc)) =
          e :: greedyAccept ex rest (e :: acc)
        rw [if_neg hc]
      rw [hres] at hrej
      have hpe : p ≠ e := fun h => hrej (h ▸ List.mem_cons_self _ _)
      have hpr : p ∈ rest := (List.mem_cons.1 hp).resolve_left hpe
      have hacc' : ∀ q ∈ rest, ∀ a ∈ e :: acc, a.2.2 ≤ q.2.2 := by
        intro q hq a ha
        rcases List.mem_cons.1 ha with hae | haa
        · rw [hae]
          exact hhead q hq
        · exact hacc q (List.mem_cons_of_mem _ hq) a haa
      have hrej' : p ∉ greedyAccept ex rest (e :: acc) := fun h =>
        hrej (List.mem_cons_of_mem _ h)
      obtain ⟨a, hmem, hconf, hdist⟩ := ih (e :: acc) hsort' hacc' p hpr hrej'
      refine ⟨a, ?_, hconf, hdist⟩
      rw [hres]
      rcases hmem with hres' | hacc''
      · exact .inl (List.mem_cons_of_mem _ hres')
      · rcases List.mem_cons.1 hacc'' with hae | haa
        · exact .inl (hae ▸ List.mem_cons_self _ _)
        · exact .inr haa

/-- The output of `_exclude_trivial_matches` is a permutation of the entries
accepted by the greedy loop (the boolean mask re-orders the accepted entries
back into original index order). -/
theorem exclude_trivial_perm (ex : ℤ) (ps : List MatchEntry) :
    (_exclude_trivial_matches ex ps).Perm
      ((greedyAccept ex (List.insertionSort distOrder ps.enum) []).map Prod.snd) := by
  have hsperm : (List.insertionSort distOrder ps.enum).Perm ps.enum :=
    List.perm_insertionSort distOrder ps.enum
  have hsub := greedyAccept_sublist ex (List.insertionSort distOrder ps.enum) []
  have henum_nodup : ps.enum.Nodup := (List.nodup_enum_map_fst ps).of_map
  have hsorted_nodup : (List.insertionSort distOrder ps.enum).Nodup :=
    hsperm.nodup_iff.2 henum_nodup
  have hkept_nodup : (greedyAccept ex (List.insertionSort distOrder ps.enum) []).Nodup :=
    hsorted_nodup.sublist hsub
  have hkept_mem : ∀ a ∈ greedyAccept ex (List.insertionSort distOrder ps.enum) [],
      a ∈ ps.enum := fun a ha => hsperm.subset (hsub.subset ha)
  have hinj : ∀ ⦃a : ℕ × MatchEntry⦄, a ∈ ps.enum → ∀ ⦃b : ℕ × MatchEntry⦄,
      b ∈ ps.enum → a.1 = b.1 → a = b :=
    List.inj_on_of_nodup_map (List.nodup_enum_map_fst ps)
  have hext : ∀ a : ℕ × MatchEntry,
      (a ∈ ps.enum.filter fun p =>
        (greedyAccept ex (List.insertionSort distOrder ps.enum) []).any
          fun k => k.1 == p.1) ↔
      a ∈ greedyAccept ex (List.insertionSort distOrder ps.enum) [] := by
    intro a
    rw [List.mem_filter]
    constructor
    · rintro ⟨hmem, hany⟩
      obtain ⟨k, hk, hk1⟩ := List.any_eq_true.1 hany
      have hkeq : k.1 = a.1 := by simpa using hk1
      have := hinj (hkept_mem k hk) hmem hkeq
      exact this ▸ hk
    · intro ha
      refine ⟨hkept_mem a ha, List.any_eq_true.2 ⟨a, ha, ?_⟩⟩
      simp
  have hperm : (ps.enum.filter fun p =>
      (greedyAccept ex (List.insertionSort distOrder ps.enum) []).any
        fun k => k.1 == p.1).Perm
      (greedyAccept ex (List.insertionSort distOrder ps.enum) []) :=
    (List.perm_ext_iff_of_nodup (henum_nodup.filter _) hkept_nodup).2 hext
  exact hperm.map Prod.snd

/-- C2 part (a) for the suppression step itself: the accepted matches are
pairwise at least `exclude` apart in start index. -/
theorem exclude_trivial_pairwise (ex : ℤ) (ps : List MatchEntry) :
    (_exclude_trivial_matches ex ps).Pairwise
      (fun p q => ex ≤ |(p.1 : ℤ) - (q.1 : ℤ)|) := by
  have hksep := greedyAccept_pairwise ex (List.insertionSort distOrder ps.enum) []
    List.Pairwise.nil
  rw [List.append_nil] at hksep
  have hsymm : ∀ {a b : MatchEntry},
      ex ≤ |(a.1 : ℤ) - (b.1 : ℤ)| → ex ≤ |(b.1 : ℤ) - (a.1 : ℤ)| := by
    intro a b h
    rwa [abs_sub_comm]
  have hmap : ((greedyAccept ex (List.insertionSort distOrder ps.enum) []).map
      Prod.snd).Pairwise (fun p q => ex ≤ |(p.1 : ℤ) - (q.1 : ℤ)|) :=
    List.pairwise_map.2 hksep
  exact ((exclude_trivial_perm ex ps).pairwise_iff hsymm).2 hmap

/-- C2 part (b) for the suppression step: a placement dropped by the
suppression conflicts with a kept placement of smaller-or-equal distance. -/
theorem exclude_trivial_preference (ex : ℤ) (ps : List MatchEntry) (p : MatchEntry)
    (hp : p ∈ ps) (hrej : p ∉ _exclude_trivial_matches ex ps) :
    ∃ q ∈ _exclude_trivial_matches ex ps,
      |(q.1 : ℤ) - (p.1 : ℤ)| < ex ∧ q.2 ≤ p.2 := by
  obtain ⟨i, hi⟩ : ∃ i, (i, p) ∈ ps.enum := by
    obtain ⟨n, hn⟩ := List.mem_iff_get?.1 hp
    exact ⟨n, List.mem_enum_iff_get?.2 hn⟩
  have hsperm : (List.insertionSort distOrder ps.enum).Perm ps.enum :=
    List.perm_insertionSort distOrder ps.enum
  have hsorted_mem : (i, p) ∈ List.insertionSort distOrder ps.enum :=
    hsperm.symm.subset hi
  by_cases hk : (i, p) ∈ greedyAccept ex (List.insertionSort distOrder ps.enum) []
  · exfalso
    refine hrej ((exclude_trivial_perm ex ps).symm.subset ?_)
    exact List.mem_map_of_mem Prod.snd hk
  · obtain ⟨a, hmem, hconf, hdist⟩ := greedyAccept_rejected ex
      (List.insertionSort distOrder ps.enum) []
      (List.sorted_insertionSort distOrder ps.enum)
      (fun _ _ a ha => absurd ha (List.not_mem_nil a))
      (i, p) hsorted_mem hk
    have hmem' : a ∈ greedyAccept ex (List.insertionSort distOrder ps.enum) [] :=
      hmem.resolve_right fun h => absurd h (List.not_mem_nil a)
    refine ⟨a.2, (exclude_trivial_perm ex ps).symm.subset
      (List.mem_map_of_mem Prod.snd hmem'), hconf, hdist⟩

/-- The `"best"`/`exclude` discussion needs the scan with an infinite
threshold, which keeps every placement. -/
theorem scanPlacements_top (d : List ℚ) : scanPlacements ⊤ d = d.enum := by
  unfold scanPlacements
  apply List.filter_eq_self.2
  intro a _
  exact decide_eq_true le_top

/-- After the `if exclude:` guard, the output is pairwise non-conflicting. -/
theorem applyExclude_pairwise (e : ℤ) (raw : List MatchEntry) :
    (applyExclude (some e) raw).Pairwise
      (fun p q => ¬ (|(p.1 : ℤ) - (q.1 : ℤ)| < e)) := by
  unfold applyExclude
  dsimp only
  by_cases he : e ≠ 0
  · rw [if_pos he]
    exact (exclude_trivial_pairwise e raw).imp fun h => not_lt.2 h
  · rw [if_neg he]
    push_neg at he
    subst he
    exact pairwise_of_forall_rel (fun a b => not_lt.2 (abs_nonneg _)) raw

/-- `_filter_by_max_matches` keeps a sub-multiset, so any symmetric pairwise
property survives it. -/
theorem applyMaxMatches_pairwise {R : MatchEntry → MatchEntry → Prop}
    (hsymm : ∀ {a b : MatchEntry}, R a b → R b a) (mm : Option ℕ)
    (X : List MatchEntry) (hX : X.Pairwise R) :
    (applyMaxMatches mm X).Pairwise R := by
  unfold applyMaxMatches
  cases mm with
  | none => exact hX
  | some k =>
    dsimp only
    by_cases hk : k ≠ 0
    · rw [if_pos hk]
      have hs : (List.insertionSort entryDistOrder X).Pairwise R :=
        ((List.perm_insertionSort entryDistOrder X).pairwise_iff hsymm).2 hX
      exact hs.sublist (List.take_sublist _ _)
    · rw [if_neg hk]
      exact hX

/-- C2: the match set returned by `subsequence_match` never contains two
accepted matches whose start indices differ by less than `exclude`; when a
placement is suppressed, a kept placement within the radius has
smaller-or-equal distance; and a fractional `exclude` behaves exactly as the
absolute radius `⌈query_length · fraction⌉`. -/
theorem C2_trivial_match_suppression :
    (∀ (thr : ThresholdArg) (mm : Option ℕ) (e : ℤ) (d : List ℚ),
      (subsequenceMatchPipeline thr mm (some e) d).Pairwise
        (fun p q => ¬ (|(p.1 : ℤ) - (q.1 : ℤ)| < e))) ∧
    (∀ (ex : ℤ) (ps : List MatchEntry) (p : MatchEntry),
      p ∈ ps → p ∉ _exclude_trivial_matches ex ps →
        ∃ q ∈ _exclude_trivial_matches ex ps,
          |(q.1 : ℤ) - (p.1 : ℤ)| < ex ∧ q.2 ≤ p.2) ∧
    (∀ (thr : ThresholdArg) (mm : Option ℕ) (q : ℚ) (ylen : ℕ) (d : List ℚ),
      0 ≤ q →
        subsequence_match_result thr mm (some (.real q)) ylen d =
          subsequence_match_result thr mm (some (.int ⌈(ylen : ℚ) * q⌉)) ylen d) := by
  have hsymm : ∀ {e : ℤ} {a b : MatchEntry},
      ¬ (|(a.1 : ℤ) - (b.1 : ℤ)| < e) → ¬ (|(b.1 : ℤ) - (a.1 : ℤ)| < e) := by
    intro e a b h
    rwa [abs_sub_comm]
  refine ⟨fun thr mm e d => ?_, exclude_trivial_preference, fun thr mm q ylen d hq => ?_⟩
  · rcases thr with _ | t | _ <;>
      exact applyMaxMatches_pairwise hsymm _ _ (applyExclude_pairwise e _)
  · unfold subsequence_match_result subsequence_match_exclude
    dsimp only
    rw [if_pos hq, if_pos (Int.ceil_nonneg (mul_nonneg (Nat.cast_nonneg ylen) hq))]

/-- C2 witness: with placements `(0, 5)` and `(1, 3)` and radius 2, the
closer placement at start 1 suppresses the one at start 0; the fractional
radius `1/2` of a length-4 query behaves as the absolute radius `⌈4·1/2⌉`. -/
theorem C2_trivial_match_suppression_witness :
    (((0 : ℕ), (5 : ℚ)) ∈ [((0 : ℕ), (5 : ℚ)), (1, 3)] ∧
      ((0 : ℕ), (5 : ℚ)) ∉ _exclude_trivial_matches 2 [((0 : ℕ), (5 : ℚ)), (1, 3)] ∧
      (0 : ℚ) ≤ 1 / 2) ∧
    (∃ q ∈ _exclude_trivial_matches 2 [((0 : ℕ), (5 : ℚ)), (1, 3)],
      |(q.1 : ℤ) - ((((0 : ℕ), (5 : ℚ)) : MatchEntry).1 : ℤ)| < 2 ∧
        q.2 ≤ (((0 : ℕ), (5 : ℚ)) : MatchEntry).2) ∧
    subsequence_match_result .noThresh none (some (.real (1 / 2))) 4 [1, 2] =
      subsequence_match_result .noThresh none (some (.int ⌈(4 : ℚ) * (1 / 2)⌉)) 4 [1, 2] :=
  ⟨by decide,
   C2_trivial_match_suppression.2.1 2 [((0 : ℕ), (5 : ℚ)), (1, 3)] ((0 : ℕ), (5 : ℚ))
     (by decide) (by decide),
   C2_trivial_match_suppression.2.2 .noThresh none (1 / 2) 4 [1, 2] (by decide)⟩

/-- C5: with no threshold argument, `subsequence_match` behaves exactly as
`threshold = np.inf` with `max_matches = 10`: the result is the first ten
entries of the distance-sorted list of all placements, hence at most the ten
placements of smallest distance. -/
theorem C5_default_top10 :
    ∀ d : List ℚ,
      subsequenceMatchPipeline .noThresh none none d =
        subsequenceMatchPipeline (.num ⊤) (some 10) none d ∧
      subsequenceMatchPipeline .noThresh none none d =
        (List.insertionSort entryDistOrder d.enum).take 10 ∧
      (subsequenceMatchPipeline .noThresh none none d).length ≤ 10 := by
  intro d
  have h2 : subsequenceMatchPipeline .noThresh none none d =
      (List.insertionSort entryDistOrder d.enum).take 10 := by
    show applyMaxMatches (if (none : Option ℕ) = none then some 10 else none)
      (applyExclude none (scanPlacements ⊤ d)) = _
    rw [if_pos rfl, scanPlacements_top]
    unfold applyMaxMatches applyExclude _filter_by_max_matches
    norm_num
  refine ⟨rfl, h2, ?_⟩
  rw [h2, List.length_take]
  exact min_le_left _ _

/-- The distance-vector variance is nonnegative. -/
theorem npVar_nonneg (d : List ℚ) : 0 ≤ npVar d := by
  unfold npVar
  apply div_nonneg _ (Nat.cast_nonneg _)
  apply List.sum_nonneg
  intro x hx
  obtain ⟨a, _, rfl⟩ := List.mem_map.1 hx
  positivity

/-- `√4 = 2`. -/
theorem sqrt_four : Real.sqrt 4 = 2 := by
  rw [show (4 : ℝ) = 2 ^ 2 by norm_num, Real.sqrt_sq (by norm_num)]

/-- The executable comparison `bestKeep` agrees with the real-valued
`_THRESHOLD["best"]` formula. -/
theorem bestKeep_iff (d : List ℚ) (x : ℚ) :
    bestKeep d x = true ↔ (x : ℝ) ≤ bestThreshold d := by
  unfold bestKeep bestThreshold
  rw [Bool.or_eq_true, Bool.and_eq_true, decide_eq_true_eq, decide_eq_true_eq,
    decide_eq_true_eq, le_max_iff]
  have hv : (0 : ℝ) ≤ ((npVar d : ℚ) : ℝ) := by exact_mod_cast npVar_nonneg d
  have hA : ((x : ℝ) ≤ (npMean d : ℝ) - 2 * Real.sqrt ((npVar d : ℚ) : ℝ)) ↔
      (x ≤ npMean d ∧ 4 * npVar d ≤ (npMean d - x) ^ 2) := by
    constructor
    · intro h
      have hs : (0 : ℝ) ≤ Real.sqrt ((npVar d : ℚ) : ℝ) := Real.sqrt_nonneg _
      have hc : (0 : ℝ) ≤ (npMean d : ℝ) - (x : ℝ) := by linarith
      have h2 : 2 * Real.sqrt ((npVar d : ℚ) : ℝ) ≤ (npMean d : ℝ) - (x : ℝ) := by
        linarith
      have hsq : (2 * Real.sqrt ((npVar d : ℚ) : ℝ)) ^ 2 ≤
          ((npMean d : ℝ) - (x : ℝ)) ^ 2 :=
        pow_le_pow_left (by positivity) h2 2
      rw [mul_pow, Real.sq_sqrt hv] at hsq
      constructor
      · exact_mod_cast (by linarith : (x : ℝ) ≤ (npMean d : ℝ))
      · have h4 : (4 : ℝ) * ((npVar d : ℚ) : ℝ) ≤ ((npMean d : ℝ) - (x : ℝ)) ^ 2 := by
          nlinarith
        exact_mod_cast h4
    · rintro ⟨h1, h2⟩
      have h1' : (x : ℝ) ≤ (npMean d : ℝ) := by exact_mod_cast h1
      have h2' : (4 : ℝ) * ((npVar d : ℚ) : ℝ) ≤ ((npMean d : ℝ) - (x : ℝ)) ^ 2 := by
        exact_mod_cast h2
      have hc : (0 : ℝ) ≤ (npMean d : ℝ) - (x : ℝ) := by linarith
      have hsr : Real.sqrt (4 * ((npVar d : ℚ) : ℝ)) ≤ (npMean d : ℝ) - (x : ℝ) := by
        rw [show ((npMean d : ℝ) - (x : ℝ)) =
          Real.sqrt (((npMean d : ℝ) - (x : ℝ)) ^ 2) from (Real.sqrt_sq hc).symm]
        exact Real.sqrt_le_sqrt h2'
      rw [Real.sqrt_mul (by norm_num) _, sqrt_four] at hsr
      linarith
  have hB : (x ≤ npMin d) ↔ ((x : ℝ) ≤ ((npMin d : ℚ) : ℝ)) := by
    exact_mod_cast Iff.rfl
  rw [← hA, ← hB]
  exact or_comm

/-- C6: with the named threshold `"best"`, `subsequence_match` keeps a
placement exactly when its distance is at most
`max(mean(d) − 2·std(d), min(d))`, the threshold being computed once from the
distance vector `d` of **all** placements before any filtering. -/
theorem C6_best_named_threshold :
    ∀ (d : List ℚ) (p : MatchEntry),
      p ∈ subsequenceMatchPipeline .best none none d ↔
        p ∈ d.enum ∧ (p.2 : ℝ) ≤ bestThreshold d := by
  intro d p
  show p ∈ applyMaxMatches none (applyExclude none
    (_filter_by_max_dist_best (scanPlacements ⊤ d))) ↔ _
  unfold applyMaxMatches applyExclude _filter_by_max_dist_best
  rw [scanPlacements_top]
  simp only [List.enum_map_snd]
  rw [List.mem_filter]
  exact and_congr_right fun _ => by rw [bestKeep_iff]

/-- Folding `max` over an all-zero list from 0 yields 0. -/
theorem foldr_max_map_zero : ∀ l : List ℝ, (l.map fun _ => (0 : ℝ)).foldr max 0 = 0
  | [] => rfl
  | _ :: l => by
    show max 0 ((l.map fun _ => (0 : ℝ)).foldr max 0) = 0
    rw [foldr_max_map_zero l, max_self]

/-- Euclidean self-distance vanishes for every real sequence. -/
theorem euclidean_distance_self (x : List ℝ) : euclidean_distance x x = 0 := by
  unfold euclidean_distance
  rw [List.zipWith_same]
  simp

/-- A sequence's dot product with itself is a sum of squares. -/
theorem dotProduct_self_nonneg (x : List ℝ) : 0 ≤ dotProduct x x := by
  unfold dotProduct
  rw [List.zipWith_same]
  apply List.sum_nonneg
  intro v hv
  obtain ⟨a, _, rfl⟩ := List.mem_map.1 hv
  exact mul_self_nonneg a

/-- C9 counterexample: for the finite-valued all-zero series `[0]`, the
cosine self-distance is `1 - 0/(√0·√0) = 1`, not 0 (in IEEE arithmetic the
same input produces `0/0 = NaN ≠ 0`), refuting "`distance(x, x) == 0` under
every lock-step metric for all finite-valued x". -/
theorem C9_cosine_zero_series :
    cosine_distance [(0 : ℝ)] [(0 : ℝ)] = 1 ∧
      cosine_distance [(0 : ℝ)] [(0 : ℝ)] ≠ 0 := by
  have h : cosine_distance [(0 : ℝ)] [(0 : ℝ)] = 1 := by
    unfold cosine_distance dotProduct
    simp
  exact ⟨h, by rw [h]; norm_num⟩

/-- C9 (amended): the whole-series self-distance is 0 for every
difference-based lock-step metric on every finite real sequence (euclidean,
normalized euclidean, manhattan, chebyshev, scaled euclidean; minkowski for a
valid non-zero order), and for cosine and angular whenever the series has
non-zero norm; `pairwise_distance` with `y` omitted returns the scalar `0.0`
for a 1-D input. -/
theorem C9_lockstep_self_distance :
    (∀ x : List ℝ, euclidean_distance x x = 0 ∧ normalized_euclidean_distance x x = 0 ∧
      manhattan_distance x x = 0 ∧ chebyshev_distance x x = 0 ∧
      scaled_euclidean_distance x x = 0) ∧
    (∀ (p : ℝ) (x : List ℝ), p ≠ 0 → minkowski_distance p x x = 0) ∧
    (∀ x : List ℝ, dotProduct x x ≠ 0 →
      cosine_distance x x = 0 ∧ angular_distance x x = 0) ∧
    pairwise_distance_self_scalar 1 = some 0 := by
  refine ⟨fun x => ⟨euclidean_distance_self x, ?_, ?_, ?_, euclidean_distance_self _⟩,
    fun p x hp => ?_, fun x hx => ?_, rfl⟩
  · unfold normalized_euclidean_distance
    rw [List.zipWith_same]
    simp
  · unfold manhattan_distance
    rw [List.zipWith_same]
    simp
  · unfold chebyshev_distance
    rw [List.zipWith_same]
    simp only [sub_self, abs_zero]
    exact foldr_max_map_zero x
  · unfold minkowski_distance
    rw [List.zipWith_same]
    simp only [sub_self, abs_zero]
    rw [show (List.map (fun a => (0 : ℝ) ^ p) x) = List.map (fun _ => (0 : ℝ)) x from
      List.map_congr_left fun a _ => Real.zero_rpow hp]
    rw [show ((List.map (fun _ => (0 : ℝ)) x).sum) = 0 by simp]
    exact Real.zero_rpow (one_div_ne_zero hp)
  · have hval : dotProduct x x / (Real.sqrt (dotProduct x x) * Real.sqrt (dotProduct x x))
        = 1 := by
      rw [Real.mul_self_sqrt (dotProduct_self_nonneg x)]
      exact div_self hx
    constructor
    · unfold cosine_distance
      rw [hval]
      norm_num
    · unfold angular_distance
      rw [hval, Real.arccos_one, zero_div]

/-- C9 witness: series `[1]` with Minkowski order 2 — the order is non-zero,
the norm is non-zero, and all self-distances vanish. -/
theorem C9_lockstep_self_distance_witness :
    ((2 : ℝ) ≠ 0 ∧ dotProduct [(1 : ℝ)] [(1 : ℝ)] ≠ 0) ∧
    minkowski_distance 2 [(1 : ℝ)] [(1 : ℝ)] = 0 ∧
    (cosine_distance [(1 : ℝ)] [(1 : ℝ)] = 0 ∧
      angular_distance [(1 : ℝ)] [(1 : ℝ)] = 0) :=
  ⟨⟨by norm_num, by unfold dotProduct; simp⟩,
   C9_lockstep_self_distance.2.1 2 [(1 : ℝ)] (by norm_num),
   C9_lockstep_self_distance.2.2.1 [(1 : ℝ)] (by unfold dotProduct; simp)⟩

/-- C1 counterexample: the estimator constructed from the integer
`random_state = 1` does **not** reproduce its tree when fitted twice on the
identical training set — the second `fit` passes the already-consumed
`RandomState` stream (stored by `__init__`, returned unchanged by
`check_random_state`) to the builder, and the resulting `threshold[]`,
`left_child[]`, `right_child[]` arrays differ between the two builds. -/
theorem C1_refit_not_reproducible :
    mkShapeletTreeClassifier none 2 2 0 1 (.seed 1) = .ok demoEstimator ∧
    ¬ ((fitTwice demoEstimator demoTrainX demoTrainY).1.thresholdArray =
        (fitTwice demoEstimator demoTrainX demoTrainY).2.thresholdArray ∧
      (fitTwice demoEstimator demoTrainX demoTrainY).1.leftChildArray =
        (fitTwice demoEstimator demoTrainX demoTrainY).2.leftChildArray ∧
      (fitTwice demoEstimator demoTrainX demoTrainY).1.rightChildArray =
        (fitTwice demoEstimator demoTrainX demoTrainY).2.rightChildArray) :=
  ⟨rfl, by decide⟩

/-- C1 (amended): two estimators each freshly constructed with the same
integer `random_state` and fitted on identical data build identical trees —
the same `threshold[]`, `left_child[]` and `right_child[]` arrays — because
construction seeds identical `RandomState` streams and tree growth is a
deterministic function of the data and the stream.  (Refitting one estimator
object does not reproduce the first tree; see the counterexample.) -/
theorem C1_fresh_seed_reproducible :
    ∀ (md : Option ℕ) (mss ns : ℕ) (mins maxs : ℚ) (seed : ℕ)
      (x : List (List ℚ)) (y : List ℕ) (e₁ e₂ : ShapeletTreeClassifier),
      mkShapeletTreeClassifier md mss ns mins maxs (.seed seed) = .ok e₁ →
      mkShapeletTreeClassifier md mss ns mins maxs (.seed seed) = .ok e₂ →
      (e₁.fit x y).1.thresholdArray = (e₂.fit x y).1.thresholdArray ∧
      (e₁.fit x y).1.leftChildArray = (e₂.fit x y).1.leftChildArray ∧
      (e₁.fit x y).1.rightChildArray = (e₂.fit x y).1.rightChildArray := by
  intro md mss ns mins maxs seed x y e₁ e₂ h1 h2
  rw [h1] at h2
  injection h2 with h
  subst h
  exact ⟨rfl, rfl, rfl⟩

/-- C1 witness: two fresh constructions with `random_state = 1` on the
fixture produce the same arrays. -/
theorem C1_fresh_seed_reproducible_witness :
    (mkShapeletTreeClassifier none 2 2 0 1 (.seed 1) = .ok demoEstimator ∧
      mkShapeletTreeClassifier none 2 2 0 1 (.seed 1) = .ok demoEstimator) ∧
    ((demoEstimator.fit demoTrainX demoTrainY).1.thresholdArray =
        (demoEstimator.fit demoTrainX demoTrainY).1.thresholdArray ∧
      (demoEstimator.fit demoTrainX demoTrainY).1.leftChildArray =
        (demoEstimator.fit demoTrainX demoTrainY).1.leftChildArray ∧
      (demoEstimator.fit demoTrainX demoTrainY).1.rightChildArray =
        (demoEstimator.fit demoTrainX demoTrainY).1.rightChildArray) :=
  ⟨⟨rfl, rfl⟩,
   C1_fresh_seed_reproducible none 2 2 0 1 1 demoTrainX demoTrainY
     demoEstimator demoEstimator rfl rfl⟩

end Wildboar
